import Mathlib

/-!
Verification of the TaskFlow collaborative task manager core.

The definitions in this file are a shallow embedding of the JavaScript
sources: the Express route handlers of the unified server (task CRUD and
the move endpoint, the WebSocket broadcast), the agent 8 notification
service with its in-memory store, the agent 8 realtime server, and the
agent 8 client notification hook.  Theorems establish the ordering,
broadcast, notification and reconnection properties of that code.
-/

namespace TaskFlow

/-! ### Error classes (part_001, `AppError` hierarchy)

`NotFoundError` carries HTTP status 404, `ValidationError` 400; a raw
database failure is reported by the catch-all with status 500. -/

structure AppErr where
  name : String
  status : Nat
deriving Repr, DecidableEq

def notFoundErr : AppErr := ⟨"NotFoundError", 404⟩

def validationErr : AppErr := ⟨"ValidationError", 400⟩

def sqliteErr : AppErr := ⟨"SqliteError", 500⟩

/-! ### Ordered collection store (task rows of part_001)

A `Task` row keeps the fields relevant to ordering: primary key `id`,
owning `columnId` and the integer `position`.  A `Store` is one board:
its column ids plus its task rows. -/

structure Task where
  id : String
  columnId : String
  position : Int
deriving Repr, DecidableEq

structure Store where
  columns : List String
  tasks : List Task
deriving Repr, DecidableEq

/-- Rows of one column, as `SELECT * FROM tasks WHERE column_id = ?`. -/
def colTasks (s : Store) (c : String) : List Task :=
  s.tasks.filter (fun t => t.columnId == c)

/-- One accumulation step of the SQL `MAX(position)` aggregate. -/
def maxStep (acc : Option Int) (t : Task) : Option Int :=
  match acc with
  | none => some t.position
  | some m => some (max m t.position)

/-- `SELECT MAX(position) FROM tasks WHERE column_id = ?`: `none` on an
empty column. -/
def maxPosition (l : List Task) : Option Int :=
  l.foldl maxStep none

/-- POST /api/boards/:boardId/tasks with an explicit `columnId`: the
column must exist on the board (`ValidationError` otherwise), the new
row gets `position = (MAX(position) ?? -1) + 1` in the target column,
and the TEXT PRIMARY KEY on `id` rejects a duplicate id (the handler
surfaces that as a 500). -/
def createTask (s : Store) (id c : String) : Except AppErr (Store × Task) :=
  if ¬ s.columns.contains c then .error validationErr
  else if s.tasks.any (fun t => t.id == id) then .error sqliteErr
  else
    let p := (maxPosition (colTasks s c)).getD (-1) + 1
    let t : Task := ⟨id, c, p⟩
    .ok ({ s with tasks := s.tasks ++ [t] }, t)

/-- First UPDATE of the move handler:
`UPDATE tasks SET position = position + 1 WHERE column_id = ? AND position >= ?`
applied to one row. -/
def shiftStep (c : String) (pos : Int) (t : Task) : Task :=
  if t.columnId = c ∧ pos ≤ t.position then { t with position := t.position + 1 } else t

/-- Second UPDATE of the move handler:
`UPDATE tasks SET column_id = ?, position = ? WHERE id = ?` applied to
one row. -/
def reparentStep (tid c : String) (pos : Int) (t : Task) : Task :=
  if t.id = tid then { t with columnId := c, position := pos } else t

/-- PATCH /api/boards/:boardId/tasks/:taskId/move: looks up the task
(404 `NotFoundError` if absent), checks the target column exists on the
board (400 `ValidationError` if not), then runs the shift UPDATE
followed by the reparent UPDATE. -/
def moveTask (s : Store) (tid c : String) (pos : Int) : Except AppErr Store :=
  if ¬ s.tasks.any (fun t => t.id == tid) then .error notFoundErr
  else if ¬ s.columns.contains c then .error validationErr
  else .ok { s with tasks := (s.tasks.map (shiftStep c pos)).map (reparentStep tid c pos) }

/-- The whole move endpoint: on success it broadcasts one
`task:moved` message; the catch branch answers the caller with the
error's status and broadcasts nothing. -/
def moveEndpoint (s : Store) (tid c : String) (pos : Int) :
    Except AppErr Store × List String :=
  match moveTask s tid c pos with
  | .ok s2 => (.ok s2, ["task:moved"])
  | .error e => (.error e, [])

/-- DELETE /api/boards/:boardId/tasks/:taskId: 404 if the row is gone,
otherwise `DELETE FROM tasks WHERE id = ?` (siblings keep their
positions — gaps are left in place). -/
def deleteTask (s : Store) (tid : String) : Except AppErr Store :=
  if ¬ s.tasks.any (fun t => t.id == tid) then .error notFoundErr
  else .ok { s with tasks := s.tasks.filter (fun t => !(t.id == tid)) }

/-- Comparison used by the GET listing (`ORDER BY position ASC`). -/
@[reducible] def taskLE (a b : Task) : Prop := a.position ≤ b.position

instance : IsTotal Task taskLE := ⟨fun a b => Int.le_total a.position b.position⟩

instance : IsTrans Task taskLE := ⟨fun _ _ _ hab hbc => le_trans hab hbc⟩

/-- GET /api/boards/:boardId/tasks?columnId=c: the rows of the column
ordered by ascending position (the `created_at DESC` tie break never
fires on a duplicate-free column). -/
def listTasks (s : Store) (c : String) : List Task :=
  List.insertionSort taskLE (colTasks s c)

/-! ### Operation sequences over the store -/

/-- One mutation request against the task table. -/
inductive StoreOp where
  | create (id c : String)
  | move (tid c : String) (pos : Int)
  | remove (tid : String)
deriving Repr, DecidableEq

/-- Run one request; a thrown error is answered to the caller and
leaves the table untouched. -/
def applyOp (s : Store) : StoreOp → Store
  | .create id c =>
      match createTask s id c with
      | .ok (s2, _) => s2
      | .error _ => s
  | .move tid c pos =>
      match moveTask s tid c pos with
      | .ok s2 => s2
      | .error _ => s
  | .remove tid =>
      match deleteTask s tid with
      | .ok s2 => s2
      | .error _ => s

def applyOps (s : Store) (ops : List StoreOp) : Store :=
  ops.foldl applyOp s

/-- Store invariant: task ids are pairwise distinct (the PRIMARY KEY)
and within every column the positions are pairwise distinct. -/
def StoreInv (s : Store) : Prop :=
  (s.tasks.map Task.id).Nodup ∧ ∀ c, ((colTasks s c).map Task.position).Nodup

/-! ### Connection registry and broadcast (part_001 WebSocket block and
part_009 `RealtimeServer`)

Both servers keep `clients : Map<userId, Set<WebSocket>>`; a socket is
added under `ws.userId` after the token verifies, and removed by the
socket's `close` handler.  `readyState = 1` is the OPEN state.
`sendFails` models a socket whose underlying `ws.send` throws. -/

structure WsConn where
  connId : Nat
  userId : String
  readyState : Nat
  sendFails : Bool
deriving Repr, DecidableEq

structure Registry where
  entries : List (String × List WsConn)
deriving Repr, DecidableEq

/-- What registration guarantees: every socket is filed under its own
`ws.userId`, and the map has one entry per user. -/
def RegistryWF (reg : Registry) : Prop :=
  (∀ e ∈ reg.entries, ∀ w ∈ e.2, w.userId = e.1) ∧ (reg.entries.map Prod.fst).Nodup

/-- part_001 `broadcast(excludeUserId, event, payload)`: iterate the
client map, skip the excluded user's whole entry, and send to every
socket with `readyState === 1`.  This returns the sockets written to. -/
def broadcastRecipients (reg : Registry) (excludeUserId : String) : List WsConn :=
  reg.entries.flatMap (fun e =>
    if e.1 = excludeUserId then []
    else e.2.filter (fun w => w.readyState == 1))

/-- part_009 `clients.get(String(userId))` with the `if (!sockets) return 0`
guard of `sendToUser`. -/
def lookupConns (reg : Registry) (u : String) : List WsConn :=
  match reg.entries.find? (fun e => e.1 == u) with
  | some e => e.2
  | none => []

/-- part_009 `sendToUser`: number of OPEN sockets of the user that are
written to (`sent` is incremented after `_send`, which swallows write
errors, so a failing socket still counts). -/
def sendToUserCount (reg : Registry) (u : String) : Nat :=
  (lookupConns reg u).countP (fun w => w.readyState == 1)

/-- part_009 `_send`: `try { ws.send(...) } catch (err) { console.error }`.
The only observable result is whether the write went through; the
client map is not touched on either path. -/
def wsSendOk (w : WsConn) : Bool :=
  !w.sendFails

/-- part_009 `broadcast(message, excludeUserId)`: returns the sent
count and the registry it leaves behind.  Neither `broadcast` nor
`_send` mutates `this.clients`, so the registry component is the input
registry, whatever `sendFails` flags are set. -/
def rtBroadcast (reg : Registry) (excl : Option String) : Nat × Registry :=
  (reg.entries.foldr (fun e acc =>
      if excl = some e.1 then acc
      else e.2.countP (fun w => w.readyState == 1) + acc) 0,
   reg)

/-- part_009 `ws.on('close')` handler: delete the socket from its
user's set and drop the user entry once the set is empty. -/
def removeConn (reg : Registry) (w : WsConn) : Registry :=
  ⟨reg.entries.foldr (fun e acc =>
      if e.1 = w.userId then
        let rest := e.2.filter (fun v => !(v == w))
        if rest.isEmpty then acc else (e.1, rest) :: acc
      else e :: acc) []⟩

/-! ### Notification store and service (agent 8 `notificationService.js`)

The in-memory `db` keeps an insertion-ordered array of records and a
`nextId` counter; timestamps are modelled as naturals. -/

structure NotifRecord where
  id : String
  userId : String
  ntype : String
  title : String
  body : String
  link : String
  read : Bool
  readAt : Option Nat
  createdAt : Nat
deriving Repr, DecidableEq

structure NotifStore where
  records : List NotifRecord
  nextId : Nat
deriving Repr, DecidableEq

/-- `db.create(data)`: assign `String(nextId++)`, force `read: false`,
stamp `createdAt`, push onto the array. -/
def dbCreate (st : NotifStore) (userId ntype title body link : String) (now : Nat) :
    NotifRecord × NotifStore :=
  let r : NotifRecord := ⟨toString st.nextId, userId, ntype, title, body, link, false, none, now⟩
  (r, ⟨st.records ++ [r], st.nextId + 1⟩)

/-- Sort comparison of `db.findByUser`: newest `createdAt` first. -/
@[reducible] def newerFirst (a b : NotifRecord) : Prop := b.createdAt ≤ a.createdAt

instance : IsTotal NotifRecord newerFirst := ⟨fun a b => Nat.le_total b.createdAt a.createdAt⟩

instance : IsTrans NotifRecord newerFirst := ⟨fun _ _ _ hab hbc => le_trans hbc hab⟩

/-- `db.findByUser(userId, {limit, offset, unreadOnly})`: filter by
user, optionally by unread, sort newest first, then
`slice(offset, offset + limit)`. -/
def dbFindByUser (st : NotifStore) (userId : String) (limit offset : Nat)
    (unreadOnly : Bool) : List NotifRecord :=
  ((List.insertionSort newerFirst
      (if unreadOnly then (st.records.filter (fun n => n.userId == userId)).filter (fun n => !n.read)
       else st.records.filter (fun n => n.userId == userId))).drop offset).take limit

/-- One record under `db.markRead(ids, userId)`: flipped exactly when
its id is listed, it belongs to the calling user, and it is unread. -/
def markStep (ids : List String) (userId : String) (now : Nat) (n : NotifRecord) : NotifRecord :=
  if ids.contains n.id ∧ n.userId = userId ∧ n.read = false
  then { n with read := true, readAt := some now } else n

/-- `db.markRead(ids, userId)`: returns the number flipped and the
updated array. -/
def dbMarkRead (st : NotifStore) (ids : List String) (userId : String) (now : Nat) :
    Nat × NotifStore :=
  (st.records.countP (fun n => decide (ids.contains n.id ∧ n.userId = userId ∧ n.read = false)),
   { st with records := st.records.map (markStep ids userId now) })

/-! #### Event payloads and templates

`EventPayload` carries the fields the agent 8 handlers and templates
read, each optional the way the JavaScript payloads are.  The
acting-user identity of an event (`assignedBy`, `completedBy`,
`authorId`) travels in the payload; only the commented handler reads
it. -/

structure EventPayload where
  taskId : String
  taskTitle : String
  assigneeId : Option String
  assignedBy : Option String
  assignedByName : Option String
  watcherIds : List String
  completedBy : Option String
  completedByName : Option String
  subscriberIds : List String
  authorId : Option String
  authorName : Option String
  commentId : String
deriving Repr, DecidableEq

/-- The acting user of a domain event, as documented for each event
shape (`assignedBy` for assignment, `completedBy` for completion, the
comment's `authorId` for comments). -/
def actingUser (ev : String) (p : EventPayload) : Option String :=
  if ev = "task:assigned" then p.assignedBy
  else if ev = "task:completed" then p.completedBy
  else if ev = "task:commented" then p.authorId
  else none

/-- The per-type templates (title, body, deep link).  Unknown types
fall back to `{title: type, link: '#'}` as in the source. -/
def renderTemplate (ntype : String) (p : EventPayload) : String × String × String :=
  if ntype = "task:assigned" then
    ("New task assigned",
     "You were assigned \"" ++ p.taskTitle ++ "\" by " ++ p.assignedByName.getD "someone" ++ ".",
     "/tasks/" ++ p.taskId)
  else if ntype = "task:completed" then
    ("Task completed",
     "\"" ++ p.taskTitle ++ "\" was marked complete by " ++ p.completedByName.getD "someone" ++ ".",
     "/tasks/" ++ p.taskId)
  else if ntype = "task:commented" then
    ("New comment",
     p.authorName.getD "Someone" ++ " commented on \"" ++ p.taskTitle ++ "\".",
     "/tasks/" ++ p.taskId ++ "#comment-" ++ p.commentId)
  else (ntype, "", "#")

/-- `eventBus.on('task:assigned')` handler: notify the assignee when
one is present — there is no comparison against the acting user. -/
def onTaskAssigned (p : EventPayload) : List (String × String) :=
  match p.assigneeId with
  | some a => [(a, "task:assigned")]
  | none => []

/-- `eventBus.on('task:completed')` handler: notify every watcher —
there is no comparison against the acting user. -/
def onTaskCompleted (p : EventPayload) : List (String × String) :=
  p.watcherIds.map (fun u => (u, "task:completed"))

/-- `eventBus.on('task:commented')` handler: notify each subscriber
except the comment's author (`uid !== payload.authorId`). -/
def onTaskCommented (p : EventPayload) : List (String × String) :=
  (p.subscriberIds.filter (fun u => !(p.authorId == some u))).map
    (fun u => (u, "task:commented"))

/-- `NotificationService.notify(userId, type, payload)`: render the
template, persist via `db.create`, then push over the socket layer;
returns the created record, the new store, and the number of sockets
written (`sendToUser` returns 0 for an offline user). -/
def notify (st : NotifStore) (reg : Registry) (userId ntype : String)
    (p : EventPayload) (now : Nat) : NotifRecord × NotifStore × Nat :=
  let c := renderTemplate ntype p
  let rs := dbCreate st userId ntype c.1 c.2.1 c.2.2 now
  (rs.1, rs.2, sendToUserCount reg userId)

/-- `NotificationService.getForUser(userId, opts)` delegates to
`db.findByUser`; it reads nothing from the connection registry. -/
def getForUser (st : NotifStore) (userId : String) (limit offset : Nat)
    (unreadOnly : Bool) : List NotifRecord :=
  dbFindByUser st userId limit offset unreadOnly

/-- `NotificationService.markRead(userId, ids)`: flip via `db.markRead`
and push a `notification:read` message to that user's sockets. -/
def serviceMarkRead (st : NotifStore) (ids : List String) (userId : String) (now : Nat) :
    Nat × NotifStore :=
  dbMarkRead st ids userId now

/-! ### Client notification hook (agent 8 `useNotifications.js`)

The hook's connection behavior as a step function: the mount effect
issues `fetchNotifications()` and then `connectWs()`; `onopen` marks
connected and resets the backoff delay; `onclose` schedules a
reconnect timer with the current delay; the timer doubles the delay
(capped) and calls `connectWs()` again; an incoming frame is handled
by the `onmessage` switch.  Nothing but the mount effect calls
`fetchNotifications`. -/

inductive HookEvent where
  | mount
  | wsOpen
  | wsClose
  | timerFire
  | push (mtype : String)
deriving Repr, DecidableEq

inductive HookAction where
  | fetchAll
  | wsConnect
  | processPush (mtype : String)
  | scheduleReconnect (delayMs : Nat)
deriving Repr, DecidableEq

def wsReconnectBase : Nat := 1000

def wsReconnectMax : Nat := 30000

structure HookState where
  connected : Bool
  reconnectDelay : Nat
deriving Repr, DecidableEq

def initHookState : HookState := ⟨false, wsReconnectBase⟩

def hookStep (st : HookState) : HookEvent → HookState × List HookAction
  | .mount => (st, [.fetchAll, .wsConnect])
  | .wsOpen => ({ st with connected := true, reconnectDelay := wsReconnectBase }, [])
  | .wsClose => ({ st with connected := false }, [.scheduleReconnect st.reconnectDelay])
  | .timerFire => ({ st with reconnectDelay := min (st.reconnectDelay * 2) wsReconnectMax }, [.wsConnect])
  | .push m => (st, [.processPush m])

def hookRun (st : HookState) : List HookEvent → HookState × List HookAction
  | [] => (st, [])
  | e :: es =>
      let sa := hookStep st e
      let rest := hookRun sa.1 es
      (rest.1, sa.2 ++ rest.2)

/-- Number of full REST fetches in an action trace. -/
def countFetch (l : List HookAction) : Nat :=
  l.countP (fun a => a == .fetchAll)

/-- Number of hook mounts in an event trace. -/
def countMount (l : List HookEvent) : Nat :=
  l.countP (fun e => e == .mount)

/-! ## Basic facts about the two UPDATE steps of the move handler -/

theorem shiftStep_id (c : String) (pos : Int) (t : Task) : (shiftStep c pos t).id = t.id := by
  unfold shiftStep; split <;> rfl

theorem shiftStep_columnId (c : String) (pos : Int) (t : Task) :
    (shiftStep c pos t).columnId = t.columnId := by
  unfold shiftStep; split <;> rfl

theorem reparentStep_of_ne {tid : String} (c : String) (pos : Int) {t : Task}
    (h : t.id ≠ tid) : reparentStep tid c pos t = t := by
  unfold reparentStep; rw [if_neg h]

theorem shiftStep_of_ne_col {c : String} (pos : Int) {t : Task}
    (h : t.columnId ≠ c) : shiftStep c pos t = t := by
  unfold shiftStep
  rw [if_neg]
  intro hcon
  exact h hcon.1

theorem moveWrite_of_eq {tid : String} (c : String) (pos : Int) {t : Task}
    (h : t.id = tid) :
    reparentStep tid c pos (shiftStep c pos t) = ⟨t.id, c, pos⟩ := by
  unfold reparentStep
  rw [if_pos (by rw [shiftStep_id, h])]
  rw [shiftStep_id]

theorem moveWrite_id (tid c : String) (pos : Int) (t : Task) :
    (reparentStep tid c pos (shiftStep c pos t)).id = t.id := by
  unfold reparentStep
  split
  · rw [shiftStep_id]
  · rw [shiftStep_id]

/-- Success condition of the move handler, unfolded. -/
theorem moveTask_ok {s : Store} {tid c : String} {pos : Int}
    (hany : s.tasks.any (fun t => t.id == tid) = true)
    (hcon : s.columns.contains c = true) :
    moveTask s tid c pos =
      .ok { s with tasks := (s.tasks.map (shiftStep c pos)).map (reparentStep tid c pos) } := by
  have hcm : c ∈ s.columns := by simpa using hcon
  unfold moveTask
  rw [if_neg (by simp [hany]), if_neg (by simp [hcm])]

/-- C1: a move first shifts every task of the target column whose
position is ≥ the target index up by one, then writes
`column_id = target, position = targetIndex` on the moved task; and on
the concrete bucket [A,B,C] at positions [0,1,2], moving C to index 0
of the same bucket lists as [C,A,B]. -/
theorem C1_move_shifts_then_assigns
    (s : Store) (tid c : String) (pos : Int) (X : Task)
    (hX : X ∈ s.tasks) (hid : X.id = tid) (hc : c ∈ s.columns) :
    ∃ s2, moveTask s tid c pos = .ok s2 ∧
      (∀ t ∈ s.tasks, t.id ≠ tid →
        (t.columnId = c → pos ≤ t.position →
            ({ t with position := t.position + 1 } : Task) ∈ s2.tasks) ∧
        (¬ (t.columnId = c ∧ pos ≤ t.position) → t ∈ s2.tasks)) ∧
      (⟨tid, c, pos⟩ : Task) ∈ s2.tasks ∧
      (moveTask ⟨["Todo"], [⟨"A", "Todo", 0⟩, ⟨"B", "Todo", 1⟩, ⟨"C", "Todo", 2⟩]⟩
          "C" "Todo" 0).toOption.map (fun st => (listTasks st "Todo").map Task.id) =
        some ["C", "A", "B"] := by
  have hany : s.tasks.any (fun t => t.id == tid) = true := by
    rw [List.any_eq_true]
    exact ⟨X, hX, by simp [hid]⟩
  have hcon : s.columns.contains c = true := by
    simpa using hc
  refine ⟨_, moveTask_ok hany hcon, ?_, ?_, by rfl⟩
  · intro t ht htid
    have hmem : reparentStep tid c pos (shiftStep c pos t) ∈
        (s.tasks.map (shiftStep c pos)).map (reparentStep tid c pos) :=
      List.mem_map_of_mem _ (List.mem_map_of_mem _ ht)
    rw [reparentStep_of_ne c pos (by rw [shiftStep_id]; exact htid)] at hmem
    constructor
    · intro hcol hpos
      have : shiftStep c pos t = { t with position := t.position + 1 } := by
        unfold shiftStep
        rw [if_pos ⟨hcol, hpos⟩]
      rwa [this] at hmem
    · intro hno
      have : shiftStep c pos t = t := by
        unfold shiftStep
        rw [if_neg hno]
      rwa [this] at hmem
  · have hmem : reparentStep tid c pos (shiftStep c pos X) ∈
        (s.tasks.map (shiftStep c pos)).map (reparentStep tid c pos) :=
      List.mem_map_of_mem _ (List.mem_map_of_mem _ hX)
    rwa [moveWrite_of_eq c pos hid, hid] at hmem

/-- Witness for C1 on the concrete three-task bucket. -/
theorem C1_move_shifts_then_assigns_witness :
    ∃ s2, moveTask ⟨["Todo"], [⟨"A", "Todo", 0⟩, ⟨"B", "Todo", 1⟩, ⟨"C", "Todo", 2⟩]⟩
        "C" "Todo" 0 = .ok s2 ∧ (⟨"C", "Todo", 0⟩ : Task) ∈ s2.tasks := by
  obtain ⟨s2, hok, _, hmem, _⟩ :=
    C1_move_shifts_then_assigns
      ⟨["Todo"], [⟨"A", "Todo", 0⟩, ⟨"B", "Todo", 1⟩, ⟨"C", "Todo", 2⟩]⟩
      "C" "Todo" 0 ⟨"C", "Todo", 2⟩ (by decide) rfl (by decide)
  exact ⟨s2, hok, hmem⟩

/-- C3 counterexample: a self-assignment event (`assigneeId` equal to
the acting `assignedBy` user) still produces a notify call for the
acting user — the `task:assigned` handler never consults the acting
user. -/
theorem C3_counterexample :
    onTaskAssigned
        ⟨"t1", "Write unit tests", some "u1", some "u1", some "Alice",
          [], none, none, [], none, none, ""⟩ =
      [("u1", "task:assigned")] ∧
    actingUser "task:assigned"
        ⟨"t1", "Write unit tests", some "u1", some "u1", some "Alice",
          [], none, none, [], none, none, ""⟩ = some "u1" := by
  decide

/-- C3 amended: only the `task:commented` handler excludes the acting
user (the comment's author); the `task:assigned` handler notifies the
assignee and the `task:completed` handler notifies every watcher
whether or not that target is the acting user. -/
theorem C3_only_commented_excludes_actor :
    (∀ p : EventPayload, ∀ u ty, (u, ty) ∈ onTaskCommented p → ¬ p.authorId = some u) ∧
    (∀ p : EventPayload, ∀ a, p.assigneeId = some a →
        onTaskAssigned p = [(a, "task:assigned")]) ∧
    (∀ p : EventPayload, (onTaskCompleted p).map Prod.fst = p.watcherIds) := by
  refine ⟨?_, ?_, ?_⟩
  · intro p u ty h
    unfold onTaskCommented at h
    rw [List.mem_map] at h
    obtain ⟨x, hx, hxe⟩ := h
    rw [List.mem_filter] at hx
    have hxu : x = u := congrArg Prod.fst hxe
    intro hcontra
    subst hxu
    rw [hcontra] at hx
    simp at hx
  · intro p a h
    unfold onTaskAssigned
    rw [h]
  · intro p
    unfold onTaskCompleted
    rw [List.map_map,
      show (Prod.fst ∘ fun u : String => (u, "task:completed")) = id from rfl, List.map_id]

/-- Witness for the amended C3: the author of a comment is excluded on
a concrete payload, and a concrete assignment notifies its assignee. -/
theorem C3_only_commented_excludes_actor_witness :
    ¬ (EventPayload.mk "t1" "T" none none none [] none none ["u2"] (some "u1") none "c1").authorId
        = some "u2" ∧
    onTaskAssigned ⟨"t1", "T", some "u3", none, none, [], none, none, [], none, none, ""⟩ =
      [("u3", "task:assigned")] :=
  ⟨C3_only_commented_excludes_actor.1 _ "u2" "task:commented" (by decide),
   C3_only_commented_excludes_actor.2.1 _ "u3" rfl⟩

/-- C4: the broadcast skips the excluded user's whole registry entry —
so every socket of that user, across all their sessions, is silenced —
while every OPEN socket filed under any other user is written to. -/
theorem C4_broadcast_user_granularity (reg : Registry) (ex : String) (hwf : RegistryWF reg) :
    (∀ w ∈ broadcastRecipients reg ex, w.userId ≠ ex ∧ w.readyState = 1) ∧
    (∀ e ∈ reg.entries, e.1 ≠ ex → ∀ w ∈ e.2, w.readyState = 1 →
        w ∈ broadcastRecipients reg ex) := by
  obtain ⟨hbind, _⟩ := hwf
  constructor
  · intro w hw
    unfold broadcastRecipients at hw
    rw [List.mem_flatMap] at hw
    obtain ⟨e, he, hwe⟩ := hw
    by_cases hex : e.1 = ex
    · rw [if_pos hex] at hwe
      exact absurd hwe (List.not_mem_nil w)
    · rw [if_neg hex] at hwe
      rw [List.mem_filter] at hwe
      refine ⟨?_, by simpa using hwe.2⟩
      rw [hbind e he w hwe.1]
      exact hex
  · intro e he hne w hw hrs
    unfold broadcastRecipients
    rw [List.mem_flatMap]
    exact ⟨e, he, by
      rw [if_neg hne]
      exact List.mem_filter.mpr ⟨hw, by simp [hrs]⟩⟩

/-- Witness for C4 on a two-user registry: excluding u1 silences u1's
socket and still delivers to u2's socket. -/
theorem C4_broadcast_user_granularity_witness :
    (⟨1, "u2", 1, false⟩ : WsConn) ∈
      broadcastRecipients ⟨[("u1", [⟨0, "u1", 1, false⟩]), ("u2", [⟨1, "u2", 1, false⟩])]⟩ "u1" ∧
    (⟨0, "u1", 1, false⟩ : WsConn) ∉
      broadcastRecipients ⟨[("u1", [⟨0, "u1", 1, false⟩]), ("u2", [⟨1, "u2", 1, false⟩])]⟩ "u1" := by
  have h := C4_broadcast_user_granularity
    ⟨[("u1", [⟨0, "u1", 1, false⟩]), ("u2", [⟨1, "u2", 1, false⟩])]⟩ "u1" ⟨by decide, by decide⟩
  refine ⟨h.2 ("u2", [⟨1, "u2", 1, false⟩]) (by decide) (by decide) _ (by decide) rfl, ?_⟩
  intro hmem
  exact (h.1 _ hmem).1 rfl

/-- C5 counterexample: a mount, connect, disconnect, reconnect trace
followed by a live push.  The action trace contains exactly one full
fetch (from the mount effect) against two socket connections; the push
after the reconnection is processed with no fetch having happened
after the disconnect. -/
theorem C5_counterexample :
    (hookRun initHookState
        [.mount, .wsOpen, .wsClose, .timerFire, .wsOpen, .push "notification:new"]).2 =
      [.fetchAll, .wsConnect, .scheduleReconnect 1000, .wsConnect,
        .processPush "notification:new"] ∧
    countFetch (hookRun initHookState
        [.mount, .wsOpen, .wsClose, .timerFire, .wsOpen, .push "notification:new"]).2 = 1 ∧
    (hookRun initHookState
        [.mount, .wsOpen, .wsClose, .timerFire, .wsOpen, .push "notification:new"]).2.countP
        (fun a => a == HookAction.wsConnect) = 2 := by
  decide

/-- C5 amended: `fetchNotifications` runs exactly once per mount of the
hook — the reconnect path (`onclose` timer → `connectWs`) opens a new
socket without a new full fetch, so live pushes after a reconnection
are processed without a preceding state fetch. -/
theorem C5_fetch_only_on_mount (st : HookState) (evs : List HookEvent) :
    countFetch (hookRun st evs).2 = countMount evs := by
  induction evs generalizing st with
  | nil => rfl
  | cons e es ih =>
    cases e <;>
      simp [hookRun, hookStep, countFetch, countMount, List.countP_cons,
        List.countP_append] <;>
      exact ih _

/-- C6 counterexample: a move of a missing task fails with
`NotFoundError` (HTTP 404) and an empty broadcast list — not with a
`ConflictError`, which the server does not define. -/
theorem C6_counterexample :
    moveEndpoint ⟨["Todo"], []⟩ "t-missing" "Todo" 0 = (.error notFoundErr, []) ∧
    notFoundErr.name = "NotFoundError" ∧ notFoundErr.name ≠ "ConflictError" :=
  ⟨rfl, rfl, by decide⟩

/-- C6 amended: a move referencing a nonexistent task fails with
`NotFoundError` (404), one referencing a nonexistent target column
fails with `ValidationError` (400); either way the error goes only to
the caller's response and nothing is broadcast. -/
theorem C6_move_error_no_broadcast (s : Store) (tid c : String) (pos : Int) :
    ((∀ t ∈ s.tasks, t.id ≠ tid) → moveEndpoint s tid c pos = (.error notFoundErr, [])) ∧
    ((∃ t ∈ s.tasks, t.id = tid) → c ∉ s.columns →
        moveEndpoint s tid c pos = (.error validationErr, [])) ∧
    (∀ e ms, moveEndpoint s tid c pos = (.error e, ms) → ms = []) := by
  refine ⟨?_, ?_, ?_⟩
  · intro h
    have hany : s.tasks.any (fun t => t.id == tid) = false := by
      rw [List.any_eq_false]
      intro t ht
      simp [h t ht]
    simp [moveEndpoint, moveTask, hany]
  · intro hex hc
    have hany : s.tasks.any (fun t => t.id == tid) = true := by
      rw [List.any_eq_true]
      obtain ⟨t, ht, hid⟩ := hex
      exact ⟨t, ht, by simp [hid]⟩
    simp [moveEndpoint, moveTask, hany, hc]
  · intro e ms h
    unfold moveEndpoint at h
    cases hmt : moveTask s tid c pos with
    | ok s2 => rw [hmt] at h; simp at h
    | error e2 =>
        rw [hmt] at h
        have h2 := congrArg Prod.snd h
        simpa using h2.symm

/-- Witness for the amended C6: both error shapes on concrete stores. -/
theorem C6_move_error_no_broadcast_witness :
    moveEndpoint ⟨["Todo"], [⟨"A", "Todo", 0⟩]⟩ "A" "Nope" 0 = (.error validationErr, []) ∧
    moveEndpoint ⟨["Todo"], [⟨"A", "Todo", 0⟩]⟩ "B" "Todo" 0 = (.error notFoundErr, []) :=
  ⟨(C6_move_error_no_broadcast _ "A" "Nope" 0).2.1 ⟨⟨"A", "Todo", 0⟩, by decide, rfl⟩ (by decide),
   (C6_move_error_no_broadcast _ "B" "Todo" 0).1 (by decide)⟩

/-- C7 counterexample: a registered OPEN socket whose write throws
(`sendFails`) is still present in the registry after the broadcast —
the `_send` catch block only logs, it does not purge. -/
theorem C7_counterexample :
    (rtBroadcast ⟨[("u1", [⟨0, "u1", 1, true⟩])]⟩ none).2 = ⟨[("u1", [⟨0, "u1", 1, true⟩])]⟩ ∧
    (⟨0, "u1", 1, true⟩ : WsConn) ∈
      lookupConns (rtBroadcast ⟨[("u1", [⟨0, "u1", 1, true⟩])]⟩ none).2 "u1" ∧
    wsSendOk ⟨0, "u1", 1, true⟩ = false := by
  decide

/-- No entry of the registry left by the close handler still holds the
closed socket. -/
theorem removeConn_not_mem (reg : Registry) (w : WsConn)
    (hwf : ∀ e ∈ reg.entries, ∀ v ∈ e.2, v.userId = e.1) :
    ∀ e2 ∈ (removeConn reg w).entries, w ∉ e2.2 := by
  obtain ⟨entries⟩ := reg
  unfold removeConn
  simp only at hwf ⊢
  induction entries with
  | nil => intro e2 h; exact absurd h (List.not_mem_nil e2)
  | cons e l ih =>
    have hwl : ∀ e3 ∈ l, ∀ v ∈ e3.2, v.userId = e3.1 := fun e3 h3 =>
      hwf e3 (List.mem_cons_of_mem e h3)
    intro e2 h2
    rw [List.foldr_cons] at h2
    by_cases heq : e.1 = w.userId
    · rw [if_pos heq] at h2
      by_cases hrest : (e.2.filter (fun v => !(v == w))).isEmpty
      · rw [if_pos hrest] at h2
        exact ih hwl e2 h2
      · rw [if_neg hrest] at h2
        rcases List.mem_cons.mp h2 with h2a | h2b
        · subst h2a
          intro hwmem
          have := (List.mem_filter.mp hwmem).2
          simp at this
        · exact ih hwl e2 h2b
    · rw [if_neg heq] at h2
      rcases List.mem_cons.mp h2 with h2a | h2b
      · subst h2a
        intro hwmem
        exact heq (hwf e2 (List.mem_cons_self e2 _) w hwmem).symm
      · exact ih hwl e2 h2b

/-- C7 amended: a failed socket write is caught and logged;
`broadcast`/`_send` never mutate the client registry, so the failing
connection stays registered.  A connection leaves the registry only
when its socket's close event fires, at which point the close handler
removes exactly that socket. -/
theorem C7_failed_send_not_purged (reg : Registry) (excl : Option String) (w : WsConn)
    (hwf : RegistryWF reg) :
    (rtBroadcast reg excl).2 = reg ∧
    w ∉ lookupConns (removeConn reg w) w.userId := by
  refine ⟨rfl, ?_⟩
  unfold lookupConns
  cases hf : (removeConn reg w).entries.find? (fun e => e.1 == w.userId) with
  | none => exact List.not_mem_nil w
  | some e2 =>
    exact removeConn_not_mem reg w hwf.1 e2 (List.mem_of_find?_eq_some hf)

/-- Witness for the amended C7 on a one-socket registry with a failing
write. -/
theorem C7_failed_send_not_purged_witness :
    (rtBroadcast ⟨[("u1", [⟨0, "u1", 1, true⟩])]⟩ none).2 = ⟨[("u1", [⟨0, "u1", 1, true⟩])]⟩ ∧
    (⟨0, "u1", 1, true⟩ : WsConn) ∉
      lookupConns (removeConn ⟨[("u1", [⟨0, "u1", 1, true⟩])]⟩ ⟨0, "u1", 1, true⟩) "u1" :=
  C7_failed_send_not_purged ⟨[("u1", [⟨0, "u1", 1, true⟩])]⟩ none ⟨0, "u1", 1, true⟩
    ⟨by decide, by decide⟩

/-- A record is changed by `db.markRead` exactly when its id is listed,
it belongs to the calling user, and it was unread. -/
theorem markStep_ne_iff (ids : List String) (u : String) (now : Nat) (n : NotifRecord) :
    markStep ids u now n ≠ n ↔ (ids.contains n.id ∧ n.userId = u ∧ n.read = false) := by
  by_cases hp : ids.contains n.id ∧ n.userId = u ∧ n.read = false
  · rw [markStep, if_pos hp]
    apply iff_of_true
    · intro heq
      have hr := congrArg NotifRecord.read heq
      rw [hp.2.2] at hr
      simp at hr
    · exact hp
  · rw [markStep, if_neg hp]
    apply iff_of_false
    · simp
    · exact hp

/-- C8: `notify` for a user with zero live connections still persists
the record (`sendToUser` delivers to 0 sockets), the stored record has
`read = false` for the target user, and it is returned by `getForUser`
(which reads only the store, never the connection registry, so the
user connecting later retrieves it unchanged). -/
theorem C8_offline_notify_durable (st : NotifStore) (reg : Registry) (u ty : String)
    (p : EventPayload) (now limit : Nat)
    (hoff : lookupConns reg u = [])
    (hcap : ((notify st reg u ty p now).2.1.records.filter (fun n => n.userId == u)).length ≤
      limit) :
    (notify st reg u ty p now).2.2 = 0 ∧
    (notify st reg u ty p now).1 ∈ getForUser (notify st reg u ty p now).2.1 u limit 0 false ∧
    (notify st reg u ty p now).1.userId = u ∧
    (notify st reg u ty p now).1.read = false := by
  have hsend : (notify st reg u ty p now).2.2 = 0 := by
    show sendToUserCount reg u = 0
    rw [sendToUserCount, hoff]
    rfl
  have hget : (notify st reg u ty p now).1 ∈
      getForUser (notify st reg u ty p now).2.1 u limit 0 false := by
    have hmem : (notify st reg u ty p now).1 ∈
        (notify st reg u ty p now).2.1.records.filter (fun n => n.userId == u) := by
      apply List.mem_filter.mpr
      constructor
      · show _ ∈ st.records ++ [_]
        exact List.mem_append_right _ (List.mem_singleton.mpr rfl)
      · show ((notify st reg u ty p now).1.userId == u) = true
        simp only [beq_iff_eq]
        rfl
    have hperm := List.perm_insertionSort newerFirst
      ((notify st reg u ty p now).2.1.records.filter (fun n => n.userId == u))
    unfold getForUser dbFindByUser
    rw [if_neg (by decide), List.drop_zero,
      List.take_of_length_le (by rw [hperm.length_eq]; exact hcap)]
    exact hperm.mem_iff.mpr hmem
  exact ⟨hsend, hget, rfl, rfl⟩

/-- Witness for C8: an empty registry, one notify call, retrieved by
`getForUser` with the default limit. -/
theorem C8_offline_notify_durable_witness :
    (notify ⟨[], 1⟩ ⟨[]⟩ "u2" "task:assigned"
        ⟨"t1", "T", some "u2", some "u1", some "Alice", [], none, none, [], none, none, ""⟩ 7).2.2
      = 0 ∧
    (notify ⟨[], 1⟩ ⟨[]⟩ "u2" "task:assigned"
        ⟨"t1", "T", some "u2", some "u1", some "Alice", [], none, none, [], none, none, ""⟩ 7).1 ∈
      getForUser (notify ⟨[], 1⟩ ⟨[]⟩ "u2" "task:assigned"
        ⟨"t1", "T", some "u2", some "u1", some "Alice", [], none, none, [], none, none, ""⟩ 7).2.1
        "u2" 50 0 false := by
  have h := C8_offline_notify_durable ⟨[], 1⟩ ⟨[]⟩ "u2" "task:assigned"
    ⟨"t1", "T", some "u2", some "u1", some "Alice", [], none, none, [], none, none, ""⟩ 7 50
    rfl (by decide)
  exact ⟨h.1, h.2.1⟩

/-- C10: `db.markRead(ids, userId)` keeps every record of any other
user untouched even when its id is listed, flips exactly the listed
unread records of the calling user, and returns the number of records
it actually changed. -/
theorem C10_markRead_frame (st : NotifStore) (ids : List String) (u : String) (now : Nat) :
    ((dbMarkRead st ids u now).2.records.length = st.records.length) ∧
    (∀ i : Nat, ∀ n, st.records[i]? = some n →
      (¬ (ids.contains n.id ∧ n.userId = u ∧ n.read = false) →
          (dbMarkRead st ids u now).2.records[i]? = some n) ∧
      (ids.contains n.id → n.userId = u → n.read = false →
          (dbMarkRead st ids u now).2.records[i]? =
            some { n with read := true, readAt := some now })) ∧
    ((dbMarkRead st ids u now).1 =
      st.records.countP (fun n => decide (markStep ids u now n ≠ n))) := by
  refine ⟨by simp [dbMarkRead], ?_, ?_⟩
  · intro i n hi
    have hmap : (dbMarkRead st ids u now).2.records[i]? =
        (st.records[i]?).map (markStep ids u now) := by
      show (st.records.map (markStep ids u now))[i]? = _
      rw [List.getElem?_map]
    constructor
    · intro hno
      rw [hmap, hi]
      show some (markStep ids u now n) = some n
      rw [markStep, if_neg hno]
    · intro h1 h2 h3
      rw [hmap, hi]
      show some (markStep ids u now n) = _
      rw [markStep, if_pos ⟨h1, h2, h3⟩]
  · show st.records.countP _ = _
    apply List.countP_congr
    intro n _
    simp [markStep_ne_iff]

/-- Witness for C10: bob's unread record survives `markRead` by alice
even though its id is listed; alice's own record is flipped. -/
theorem C10_markRead_frame_witness :
    (dbMarkRead ⟨[⟨"1", "alice", "t", "", "", "#", false, none, 0⟩,
        ⟨"2", "bob", "t", "", "", "#", false, none, 0⟩], 3⟩ ["1", "2"] "alice" 5).2.records[1]? =
      some ⟨"2", "bob", "t", "", "", "#", false, none, 0⟩ ∧
    (dbMarkRead ⟨[⟨"1", "alice", "t", "", "", "#", false, none, 0⟩,
        ⟨"2", "bob", "t", "", "", "#", false, none, 0⟩], 3⟩ ["1", "2"] "alice" 5).2.records[0]? =
      some ⟨"1", "alice", "t", "", "", "#", true, some 5, 0⟩ :=
  ⟨((C10_markRead_frame ⟨[⟨"1", "alice", "t", "", "", "#", false, none, 0⟩,
        ⟨"2", "bob", "t", "", "", "#", false, none, 0⟩], 3⟩ ["1", "2"] "alice" 5).2.1 1
      ⟨"2", "bob", "t", "", "", "#", false, none, 0⟩ rfl).1 (by decide),
   ((C10_markRead_frame ⟨[⟨"1", "alice", "t", "", "", "#", false, none, 0⟩,
        ⟨"2", "bob", "t", "", "", "#", false, none, 0⟩], 3⟩ ["1", "2"] "alice" 5).2.1 0
      ⟨"1", "alice", "t", "", "", "#", false, none, 0⟩ rfl).2 (by decide) rfl rfl⟩

/-! ## Preservation of the per-column uniqueness invariant (C2) -/

theorem shiftVal_ne (pos q : Int) : (if pos ≤ q then q + 1 else q) ≠ pos := by
  split <;> omega

theorem shiftVal_inj {pos q r : Int}
    (h : (if pos ≤ q then q + 1 else q) = (if pos ≤ r then r + 1 else r)) : q = r := by
  split at h <;> split at h <;> omega

theorem moveG_columnId_of_ne {tid : String} (c : String) (pos : Int) {t : Task}
    (h : t.id ≠ tid) :
    (reparentStep tid c pos (shiftStep c pos t)).columnId = t.columnId := by
  rw [reparentStep_of_ne c pos (by rw [shiftStep_id]; exact h), shiftStep_columnId]

theorem moveG_of_ne_col {tid c : String} (pos : Int) {t : Task}
    (hid : t.id ≠ tid) (hcol : t.columnId ≠ c) :
    reparentStep tid c pos (shiftStep c pos t) = t := by
  rw [shiftStep_of_ne_col pos hcol, reparentStep_of_ne c pos hid]

theorem moveG_position_of_col {tid c : String} (pos : Int) {t : Task}
    (hid : t.id ≠ tid) (hcol : t.columnId = c) :
    (reparentStep tid c pos (shiftStep c pos t)).position =
      (if pos ≤ t.position then t.position + 1 else t.position) := by
  rw [reparentStep_of_ne c pos (by rw [shiftStep_id]; exact hid)]
  unfold shiftStep
  by_cases hp : pos ≤ t.position
  · rw [if_pos ⟨hcol, hp⟩, if_pos hp]
  · rw [if_neg (fun hc2 => hp hc2.2), if_neg hp]

theorem moveTask_ok_inv {s s2 : Store} {tid c : String} {pos : Int}
    (h : moveTask s tid c pos = .ok s2) :
    s2 = { s with tasks := (s.tasks.map (shiftStep c pos)).map (reparentStep tid c pos) } := by
  unfold moveTask at h
  split_ifs at h with h1 h2
  all_goals injection h with h
  exact h.symm

/-- A completed move keeps ids unique and keeps, in every column, the
positions pairwise distinct. -/
theorem moveTask_inv {s s2 : Store} {tid c : String} {pos : Int}
    (hinv : StoreInv s) (h : moveTask s tid c pos = .ok s2) : StoreInv s2 := by
  obtain ⟨hids, hcols⟩ := hinv
  have htnd : s.tasks.Nodup := hids.of_map
  have hidinj := List.inj_on_of_nodup_map hids
  have hs2 := moveTask_ok_inv h
  subst hs2
  constructor
  · show (((s.tasks.map (shiftStep c pos)).map (reparentStep tid c pos)).map Task.id).Nodup
    have heq : ((s.tasks.map (shiftStep c pos)).map (reparentStep tid c pos)).map Task.id =
        s.tasks.map Task.id := by
      rw [List.map_map, List.map_map]
      exact List.map_congr_left (fun t _ => moveWrite_id tid c pos t)
    rw [heq]
    exact hids
  · intro c2
    show ((((s.tasks.map (shiftStep c pos)).map (reparentStep tid c pos)).filter
        (fun t => t.columnId == c2)).map Task.position).Nodup
    rw [List.map_map, List.filter_map, List.map_map]
    apply List.Nodup.map_on ?_ (htnd.filter _)
    intro t ht u hu hpe
    rw [List.mem_filter] at ht hu
    obtain ⟨ht, htc⟩ := ht
    obtain ⟨hu, huc⟩ := hu
    simp only [Function.comp_apply, beq_iff_eq] at htc huc
    simp only [Function.comp_apply] at hpe
    by_cases hti : t.id = tid <;> by_cases hui : u.id = tid
    · exact hidinj ht hu (hti.trans hui.symm)
    · exfalso
      have hgt := moveWrite_of_eq c pos hti
      have hguc : u.columnId = c2 := by rw [← moveG_columnId_of_ne c pos hui]; exact huc
      have hc2c : c2 = c := by rw [← htc, hgt]
      have hup := moveG_position_of_col pos hui (by rw [hguc, hc2c])
      apply shiftVal_ne pos u.position
      rw [← hup, ← hpe, hgt]
    · exfalso
      have hgu := moveWrite_of_eq c pos hui
      have hgtc : t.columnId = c2 := by rw [← moveG_columnId_of_ne c pos hti]; exact htc
      have hc2c : c2 = c := by rw [← huc, hgu]
      have htp := moveG_position_of_col pos hti (by rw [hgtc, hc2c])
      apply shiftVal_ne pos t.position
      rw [← htp, hpe, hgu]
    · have hgtc : t.columnId = c2 := by rw [← moveG_columnId_of_ne c pos hti]; exact htc
      have hguc : u.columnId = c2 := by rw [← moveG_columnId_of_ne c pos hui]; exact huc
      have htm : t ∈ colTasks s c2 := List.mem_filter.mpr ⟨ht, by simp [hgtc]⟩
      have hum : u ∈ colTasks s c2 := List.mem_filter.mpr ⟨hu, by simp [hguc]⟩
      have hposeq : t.position = u.position := by
        by_cases hcc : c2 = c
        · have h1 := moveG_position_of_col pos hti (hgtc.trans hcc)
          have h2 := moveG_position_of_col pos hui (hguc.trans hcc)
          apply @shiftVal_inj pos
          rw [← h1, ← h2]
          exact hpe
        · have h1 := moveG_of_ne_col pos hti (by rw [hgtc]; exact hcc)
          have h2 := moveG_of_ne_col pos hui (by rw [hguc]; exact hcc)
          rw [← h1, ← h2]
          exact hpe
      exact List.inj_on_of_nodup_map (hcols c2) htm hum hposeq

theorem maxStep_le_aux (l : List Task) (x : Int) :
    ∃ y, l.foldl maxStep (some x) = some y ∧ x ≤ y := by
  induction l generalizing x with
  | nil => exact ⟨x, rfl, le_refl x⟩
  | cons t l ih =>
    obtain ⟨y, hy, hxy⟩ := ih (max x t.position)
    exact ⟨y, hy, le_trans (le_max_left x t.position) hxy⟩

theorem maxStep_mem_aux (l : List Task) (acc : Option Int) (t : Task) (ht : t ∈ l) :
    ∃ y, l.foldl maxStep acc = some y ∧ t.position ≤ y := by
  induction l generalizing acc with
  | nil => exact absurd ht (List.not_mem_nil t)
  | cons u l ih =>
    rcases List.mem_cons.mp ht with h1 | h2
    · subst h1
      cases acc with
      | none => exact maxStep_le_aux l t.position
      | some m =>
        obtain ⟨y, hy, hzy⟩ := maxStep_le_aux l (max m t.position)
        exact ⟨y, hy, le_trans (le_max_right m t.position) hzy⟩
    · exact ih _ h2

/-- Every position in the column is at most the SQL `MAX` (with the
`?? -1` default). -/
theorem maxPosition_spec (l : List Task) (t : Task) (ht : t ∈ l) :
    t.position ≤ (maxPosition l).getD (-1) := by
  obtain ⟨y, hy, hty⟩ := maxStep_mem_aux l none t ht
  rw [maxPosition, hy]
  exact hty

/-- A completed insert keeps ids unique and positions per column
pairwise distinct: the new row's position is one above the column
maximum. -/
theorem createTask_inv {s s2 : Store} {id c : String} {t : Task}
    (hinv : StoreInv s) (h : createTask s id c = .ok (s2, t)) : StoreInv s2 := by
  obtain ⟨hids, hcols⟩ := hinv
  unfold createTask at h
  split_ifs at h with h1 h2
  all_goals injection h with h
  · have hs2 := congrArg Prod.fst h
    simp only at hs2
    subst hs2
    have hfresh : ∀ u ∈ s.tasks, u.id ≠ id := by
      intro u hu
      have := h2
      rw [List.any_eq_true] at this
      intro hid
      exact this ⟨u, hu, by simp [hid]⟩
    constructor
    · show ((s.tasks ++
          [(⟨id, c, (maxPosition (colTasks s c)).getD (-1) + 1⟩ : Task)]).map Task.id).Nodup
      rw [List.map_append]
      rw [List.nodup_append]
      refine ⟨hids, List.nodup_singleton _, ?_⟩
      intro x hx hx2
      rw [List.mem_map] at hx
      obtain ⟨u, hu, hux⟩ := hx
      simp only [List.map_cons, List.map_nil, List.mem_singleton] at hx2
      exact hfresh u hu (by rw [hux, hx2])
    · intro c2
      show (((s.tasks ++
          [(⟨id, c, (maxPosition (colTasks s c)).getD (-1) + 1⟩ : Task)]).filter
            (fun u => u.columnId == c2)).map Task.position).Nodup
      rw [List.filter_append]
      by_cases hcc : c = c2
      · subst hcc
        rw [show List.filter (fun u => u.columnId == c)
              [(⟨id, c, (maxPosition (colTasks s c)).getD (-1) + 1⟩ : Task)] =
            [⟨id, c, (maxPosition (colTasks s c)).getD (-1) + 1⟩] from by simp,
          List.map_append]
        rw [List.nodup_append]
        refine ⟨hcols c, List.nodup_singleton _, ?_⟩
        intro x hx hx2
        rw [List.mem_map] at hx
        obtain ⟨u, hu, hux⟩ := hx
        simp only [List.map_cons, List.map_nil, List.mem_singleton] at hx2
        have hle := maxPosition_spec (colTasks s c) u hu
        omega
      · rw [show List.filter (fun u => u.columnId == c2)
              [(⟨id, c, (maxPosition (colTasks s c)).getD (-1) + 1⟩ : Task)] = [] from by
            simp [hcc],
          List.append_nil]
        exact hcols c2

/-- A delete keeps ids unique and positions per column pairwise
distinct (siblings are untouched). -/
theorem deleteTask_inv {s s2 : Store} {tid : String}
    (hinv : StoreInv s) (h : deleteTask s tid = .ok s2) : StoreInv s2 := by
  obtain ⟨hids, hcols⟩ := hinv
  unfold deleteTask at h
  split_ifs at h with h1
  all_goals injection h with h
  · subst h
    constructor
    · show ((s.tasks.filter (fun t => !(t.id == tid))).map Task.id).Nodup
      exact hids.sublist ((List.filter_sublist s.tasks).map Task.id)
    · intro c2
      show (((s.tasks.filter (fun t => !(t.id == tid))).filter
          (fun t => t.columnId == c2)).map Task.position).Nodup
      apply (hcols c2).sublist
      apply List.Sublist.map
      exact (List.filter_sublist s.tasks).filter _

theorem applyOp_inv {s : Store} (hinv : StoreInv s) (op : StoreOp) :
    StoreInv (applyOp s op) := by
  cases op with
  | create id c =>
    simp only [applyOp]
    cases hc : createTask s id c with
    | ok pair =>
      obtain ⟨s2, t⟩ := pair
      exact createTask_inv hinv hc
    | error e => exact hinv
  | move tid c pos =>
    simp only [applyOp]
    cases hc : moveTask s tid c pos with
    | ok s2 => exact moveTask_inv hinv hc
    | error e => exact hinv
  | remove tid =>
    simp only [applyOp]
    cases hc : deleteTask s tid with
    | ok s2 => exact deleteTask_inv hinv hc
    | error e => exact hinv

theorem applyOps_inv {s : Store} (ops : List StoreOp) (hinv : StoreInv s) :
    StoreInv (applyOps s ops) := by
  induction ops generalizing s with
  | nil => exact hinv
  | cons op ops ih => exact ih (applyOp_inv hinv op)

/-- C2: starting from any store satisfying the uniqueness invariant,
every sequence of create/move/delete requests leaves every column with
pairwise distinct integer positions after each completed operation (a
request that errors leaves the table untouched). -/
theorem C2_positions_unique (s : Store) (ops : List StoreOp) (hinv : StoreInv s) :
    ∀ c, ((colTasks (applyOps s ops) c).map Task.position).Nodup :=
  (applyOps_inv ops hinv).2

/-- Witness for C2: a create/create/move/delete sequence from an empty
board. -/
theorem C2_positions_unique_witness :
    ((colTasks (applyOps ⟨["Todo"], []⟩
        [.create "A" "Todo", .create "B" "Todo", .move "A" "Todo" 5, .remove "B"])
      "Todo").map Task.position).Nodup :=
  C2_positions_unique ⟨["Todo"], []⟩ _
    ⟨by simp, fun c => by simp [colTasks]⟩ "Todo"

/-! ## Move-then-list round trip (C9) -/

/-- In a list sorted by position with pairwise distinct positions, an
element sits at the index equal to the number of elements with a
smaller position. -/
theorem sorted_get_countP (l : List Task) (hs : l.Sorted taskLE)
    (hn : (l.map Task.position).Nodup) (Y : Task) (hY : Y ∈ l) :
    l[l.countP (fun u => decide (u.position < Y.position))]? = some Y := by
  induction l with
  | nil => exact absurd hY (List.not_mem_nil Y)
  | cons a l ih =>
    have hsl : l.Sorted taskLE := hs.of_cons
    have hal : ∀ u ∈ l, a.position ≤ u.position := fun u hu =>
      List.rel_of_sorted_cons hs u hu
    have hna : a.position ∉ l.map Task.position := by
      rw [List.map_cons] at hn
      exact (List.nodup_cons.mp hn).1
    have hnl : (l.map Task.position).Nodup := by
      rw [List.map_cons] at hn
      exact (List.nodup_cons.mp hn).2
    rcases List.mem_cons.mp hY with hya | hyl
    · have hcount : (a :: l).countP (fun u => decide (u.position < Y.position)) = 0 := by
        rw [List.countP_eq_zero]
        intro u hu
        simp only [decide_eq_true_eq]
        rcases List.mem_cons.mp hu with h1 | h2
        · rw [h1, hya]
          exact lt_irrefl _
        · rw [hya]
          exact not_lt.mpr (hal u h2)
      rw [hcount, List.getElem?_cons_zero, hya]
    · have hlt : a.position < Y.position := by
        apply lt_of_le_of_ne (hal Y hyl)
        intro heq
        exact hna (heq ▸ List.mem_map_of_mem Task.position hyl)
      rw [List.countP_cons_of_pos (p := fun u => decide (u.position < Y.position)) l
          (decide_eq_true hlt),
        List.getElem?_cons_succ]
      exact ih hsl hnl hyl

/-- Counting `j < i` over `range m` gives `i` whenever `i ≤ m`. -/
theorem countP_range_lt (m i : Nat) (h : i ≤ m) :
    (List.range m).countP (fun j => decide (j < i)) = i := by
  induction m with
  | zero =>
    have hz : i = 0 := by omega
    subst hz
    rfl
  | succ m ih =>
    rw [List.range_succ, List.countP_append]
    by_cases hm : i ≤ m
    · rw [ih hm]
      have hni : ¬ (m < i) := by omega
      simp [hni]
    · have hi : i = m + 1 := by omega
      subst hi
      rw [List.countP_eq_length.mpr ?isall, List.length_range]
      · simp
      case isall =>
        intro a ha
        have := List.mem_range.mp ha
        simp only [decide_eq_true_eq]
        omega

/-- C9 counterexample: on the contiguous bucket [A,B,C] at positions
[0,1,2], moving A (position 0) to index 2 lists the bucket as
[B, A, C] — A lands at listing index 1, not 2, because the shift also
bumps the slots behind the task's own vacated position. -/
theorem C9_counterexample :
    (moveTask ⟨["Todo"], [⟨"A", "Todo", 0⟩, ⟨"B", "Todo", 1⟩, ⟨"C", "Todo", 2⟩]⟩
        "A" "Todo" 2).toOption.map (fun s2 => (listTasks s2 "Todo").map Task.id) =
      some ["B", "A", "C"] ∧
    ["B", "A", "C"][1]? = some "A" ∧ ["B", "A", "C"][2]? ≠ some "A" := by
  refine ⟨rfl, rfl, by decide⟩

/-- C9 amended: moving task X into a bucket it is not currently in,
when that bucket's positions are exactly 0..m-1 and the target index i
satisfies i ≤ m, places X at listing index i of the ordered listing. -/
theorem C9_move_then_list (s : Store) (tid c : String) (i m : Nat) (X : Task)
    (hinv : StoreInv s) (hX : X ∈ s.tasks) (hid : X.id = tid) (hcross : X.columnId ≠ c)
    (hc : c ∈ s.columns)
    (hperm : ((colTasks s c).map Task.position).Perm ((List.range m).map Int.ofNat))
    (him : i ≤ m) :
    ∃ s2, moveTask s tid c (i : Int) = .ok s2 ∧
      (listTasks s2 c)[i]? = some ⟨tid, c, (i : Int)⟩ := by
  have hidinj := List.inj_on_of_nodup_map hinv.1
  have hany : s.tasks.any (fun t => t.id == tid) = true := by
    rw [List.any_eq_true]
    exact ⟨X, hX, by simp [hid]⟩
  have hcon : s.columns.contains c = true := by simpa using hc
  have hok := @moveTask_ok s tid c (i : Int) hany hcon
  refine ⟨_, hok, ?_⟩
  have hinv2 := moveTask_inv hinv hok
  set s2 : Store :=
    { s with tasks := (s.tasks.map (shiftStep c (i : Int))).map (reparentStep tid c (i : Int)) }
    with hs2
  have hYtasks : (⟨tid, c, (i : Int)⟩ : Task) ∈ s2.tasks := by
    have hmem : reparentStep tid c (i : Int) (shiftStep c (i : Int) X) ∈
        (s.tasks.map (shiftStep c (i : Int))).map (reparentStep tid c (i : Int)) :=
      List.mem_map_of_mem _ (List.mem_map_of_mem _ hX)
    rwa [moveWrite_of_eq c (i : Int) hid, hid] at hmem
  have hYmem : (⟨tid, c, (i : Int)⟩ : Task) ∈ colTasks s2 c :=
    List.mem_filter.mpr ⟨hYtasks, by simp⟩
  have hsorted := List.sorted_insertionSort taskLE (colTasks s2 c)
  have hlperm := List.perm_insertionSort taskLE (colTasks s2 c)
  have hnodup2 : ((colTasks s2 c).map Task.position).Nodup := hinv2.2 c
  have hnodupSorted : ((listTasks s2 c).map Task.position).Nodup :=
    ((hlperm.map Task.position).nodup_iff).mpr hnodup2
  have hYsorted : (⟨tid, c, (i : Int)⟩ : Task) ∈ listTasks s2 c :=
    hlperm.mem_iff.mpr hYmem
  have hkey := sorted_get_countP (listTasks s2 c) hsorted hnodupSorted _ hYsorted
  have hcnt : (listTasks s2 c).countP
      (fun u => decide (u.position < (⟨tid, c, (i : Int)⟩ : Task).position)) = i := by
    have h1 : (listTasks s2 c).countP (fun u => decide (u.position < (i : Int))) =
        (colTasks s2 c).countP (fun u => decide (u.position < (i : Int))) :=
      hlperm.countP_eq _
    have h3 : (colTasks s2 c).countP (fun u => decide (u.position < (i : Int))) =
        s.tasks.countP (fun t =>
          decide ((reparentStep tid c (i : Int) (shiftStep c (i : Int) t)).position < (i : Int)) &&
          ((reparentStep tid c (i : Int) (shiftStep c (i : Int) t)).columnId == c)) := by
      show (((s.tasks.map (shiftStep c (i : Int))).map (reparentStep tid c (i : Int))).filter
          (fun t => t.columnId == c)).countP (fun u => decide (u.position < (i : Int))) = _
      rw [List.countP_filter, List.countP_map, List.countP_map]
      rfl
    have h4 : s.tasks.countP (fun t =>
          decide ((reparentStep tid c (i : Int) (shiftStep c (i : Int) t)).position < (i : Int)) &&
          ((reparentStep tid c (i : Int) (shiftStep c (i : Int) t)).columnId == c)) =
        s.tasks.countP (fun t => decide (t.columnId = c ∧ t.position < (i : Int))) := by
      apply List.countP_congr
      intro t ht
      simp only [Bool.and_eq_true, decide_eq_true_eq, beq_iff_eq]
      by_cases hti : t.id = tid
      · have htX : t = X := hidinj ht hX (by rw [hti, hid])
        rw [moveWrite_of_eq c (i : Int) hti]
        constructor
        · rintro ⟨hlt, -⟩
          exact absurd hlt (by simp)
        · rintro ⟨hcol, -⟩
          rw [htX] at hcol
          exact absurd hcol hcross
      · by_cases htc : t.columnId = c
        · rw [moveG_position_of_col (i : Int) hti htc, moveG_columnId_of_ne c (i : Int) hti]
          constructor
          · rintro ⟨hlt, -⟩
            refine ⟨htc, ?_⟩
            by_cases hle : (i : Int) ≤ t.position
            · rw [if_pos hle] at hlt
              omega
            · rw [if_neg hle] at hlt
              omega
          · rintro ⟨-, hlt⟩
            refine ⟨?_, htc⟩
            by_cases hle : (i : Int) ≤ t.position
            · omega
            · rw [if_neg hle]
              omega
        · rw [moveG_of_ne_col (i : Int) hti htc]
          constructor
          · rintro ⟨-, hcc⟩
            exact absurd hcc htc
          · rintro ⟨hcc, -⟩
            exact absurd hcc htc
    have h5 : s.tasks.countP (fun t => decide (t.columnId = c ∧ t.position < (i : Int))) =
        (colTasks s c).countP (fun u => decide (u.position < (i : Int))) := by
      show _ = (s.tasks.filter (fun t => t.columnId == c)).countP
        (fun u => decide (u.position < (i : Int)))
      rw [List.countP_filter]
      apply List.countP_congr
      intro t ht
      simp only [Bool.and_eq_true, decide_eq_true_eq, beq_iff_eq]
      exact and_comm
    have h6 : (colTasks s c).countP (fun u => decide (u.position < (i : Int))) =
        ((colTasks s c).map Task.position).countP (fun x => decide (x < (i : Int))) := by
      rw [List.countP_map]
      rfl
    have h7 : ((colTasks s c).map Task.position).countP (fun x => decide (x < (i : Int))) =
        ((List.range m).map Int.ofNat).countP (fun x => decide (x < (i : Int))) :=
      hperm.countP_eq _
    have h8 : ((List.range m).map Int.ofNat).countP (fun x => decide (x < (i : Int))) =
        (List.range m).countP (fun j => decide (j < i)) := by
      rw [List.countP_map]
      apply List.countP_congr
      intro j hj
      simp only [Function.comp_apply, decide_eq_true_eq, Int.ofNat_eq_natCast]
      omega
    show (listTasks s2 c).countP (fun u => decide (u.position < (i : Int))) = i
    rw [h1, h3, h4, h5, h6, h7, h8]
    exact countP_range_lt m i him
  rw [hcnt] at hkey
  exact hkey

/-- Witness for the amended C9: X moves from Todo into Done (holding
one task at position 0) at index 1, and lists at index 1. -/
theorem C9_move_then_list_witness :
    ∃ s2, moveTask ⟨["Todo", "Done"], [⟨"B", "Done", 0⟩, ⟨"X", "Todo", 0⟩]⟩
        "X" "Done" ((1 : Nat) : Int) = .ok s2 ∧
      (listTasks s2 "Done")[(1 : Nat)]? = some ⟨"X", "Done", ((1 : Nat) : Int)⟩ := by
  apply C9_move_then_list ⟨["Todo", "Done"], [⟨"B", "Done", 0⟩, ⟨"X", "Todo", 0⟩]⟩
    "X" "Done" 1 1 ⟨"X", "Todo", 0⟩
  · constructor
    · decide
    · intro c2
      by_cases h1 : "Done" = c2
      · subst h1
        decide
      · by_cases h2 : "Todo" = c2
        · subst h2
          decide
        · have hb : (("Done" : String) == c2) = false := beq_eq_false_iff_ne.mpr h1
          have hx : (("Todo" : String) == c2) = false := beq_eq_false_iff_ne.mpr h2
          simp [colTasks, hb, hx]
  · decide
  · rfl
  · decide
  · decide
  · decide
  · decide

end TaskFlow
